import Mathlib

/-!
Verification of the `EmailValidator` class from `src/pilot/email_validator.py`.

The Python code is shallowly embedded over `List Char`: a Python string is its
list of characters, and every check of the source file becomes an executable
Lean definition with the same structure and the same error messages.  The
development models the ASCII fragment of Python string semantics: the
whitespace set of `str.strip` and the character test `str.isalnum` are taken
over the ASCII range (Python additionally accepts some non ASCII code points
there, which no theorem below relies on).
-/

/-- ASCII digit test, the regex class `[0-9]`. -/
def isDigitC (c : Char) : Bool := 48 ≤ c.toNat && c.toNat ≤ 57

/-- ASCII letter test, the regex class `[a-zA-Z]`. -/
def isAlphaC (c : Char) : Bool :=
  (65 ≤ c.toNat && c.toNat ≤ 90) || (97 ≤ c.toNat && c.toNat ≤ 122)

/-- ASCII alphanumeric test, the regex class `[a-zA-Z0-9]`; also models the
Python test `char.isalnum()` over the ASCII range. -/
def isAlnumC (c : Char) : Bool := isAlphaC c || isDigitC c

/-- The class `[a-zA-Z0-9._%+-]` of the local part of `EMAIL_PATTERN`.  It is
extensionally the strict mode test `char.isalnum() or char in set("._%+-")`
of `_validate_local_part`, over ASCII. -/
def isLocalChar (c : Char) : Bool :=
  isAlnumC c || c == '.' || c == '_' || c == '%' || c == '+' || c == '-'

/-- The class `[a-zA-Z0-9.-]` of the domain part of `EMAIL_PATTERN`. -/
def isDomainChar (c : Char) : Bool := isAlnumC c || c == '.' || c == '-'

/-- The class `[a-zA-Z0-9-]` of the per label regex in
`_validate_domain_part`. -/
def isLabelChar (c : Char) : Bool := isAlnumC c || c == '-'

/-- ASCII whitespace, the set removed by Python `str.strip()`. -/
def pyIsSpace (c : Char) : Bool :=
  c == ' ' || c == '\t' || c == '\n' || c == '\r' || c == '\x0b' || c == '\x0c'

/-- Models Python `email.strip()`: remove leading and trailing whitespace. -/
def pyStrip (l : List Char) : List Char :=
  ((l.dropWhile pyIsSpace).reverse.dropWhile pyIsSpace).reverse

/-- Models the Python substring test `cc in s` for the two character pattern
`cc` made of the character `c` twice (the source uses it as `".." in s`). -/
def hasDoubled (c : Char) : List Char → Bool
  | a :: b :: rest => if a = c ∧ b = c then true else hasDoubled c (b :: rest)
  | _ => false

/-- Models Python `s.split(sep)` for a one character separator: `"" ↦ [""]`,
and each occurrence of `sep` starts a new piece. -/
def pySplit (sep : Char) : List Char → List (List Char)
  | [] => [[]]
  | c :: rest =>
    if c = sep then [] :: pySplit sep rest
    else
      match pySplit sep rest with
      | [] => [[c]]
      | p :: ps => (c :: p) :: ps

/-- Models Python `s.rsplit(sep, 1)` (as the pair before/after the last
occurrence of `sep`); `validate` only calls it when `sep` occurs exactly
once. -/
def rsplitOnce (sep : Char) (l : List Char) : List Char × List Char :=
  (((l.reverse.dropWhile fun x => decide (x ≠ sep)).drop 1).reverse,
   (l.reverse.takeWhile fun x => decide (x ≠ sep)).reverse)

/-- The message `f"Local part contains invalid character: '{char}'"`. -/
def invalid_char_msg (c : Char) : String :=
  String.mk ("Local part contains invalid character: \x27".data ++ (c :: "\x27".data))

/-- The message `f"Domain label '{label}' contains invalid characters"`. -/
def invalid_label_msg (label : List Char) : String :=
  String.mk ("Domain label \x27".data ++ (label ++ "\x27 contains invalid characters".data))

/-- Models `re.match(r"^C+$", s)` for a character class `C`: one or more
class characters spanning the whole string, where the Python anchor `$` also
matches just before a final newline. -/
def pyFullMatchClass (cls : Char → Bool) (l : List Char) : Bool :=
  (decide (l ≠ []) && l.all cls) ||
  (decide (l.dropLast ≠ []) && l.dropLast.all cls && decide (l.getLast? = some '\n'))

/-- Embeds `EmailValidator._validate_local_part` (the Python method mutates
`self.errors`; here the appended messages are returned in the second
component). -/
def validate_local_part (strict : Bool) (lpart : List Char) : Bool × List String :=
  if lpart = [] then (false, ["Local part (before @) cannot be empty"])
  else if 64 < lpart.length then
    (false, ["Local part exceeds maximum length of 64 characters"])
  else if lpart.head? = some '.' ∨ lpart.getLast? = some '.' then
    (false, ["Local part cannot start or end with a period"])
  else if hasDoubled '.' lpart then
    (false, ["Local part cannot contain consecutive periods"])
  else if strict then
    match lpart.find? (fun c => !(isLocalChar c)) with
    | some c => (false, [invalid_char_msg c])
    | none => (true, [])
  else (true, [])

/-- Embeds the per label loop at the end of
`EmailValidator._validate_domain_part`. -/
def check_labels : List (List Char) → Bool × List String
  | [] => (true, [])
  | label :: rest =>
    if label = [] then (false, ["Domain labels cannot be empty"])
    else if 63 < label.length then
      (false, ["Domain label exceeds maximum length of 63 characters"])
    else if !(pyFullMatchClass isLabelChar label) then (false, [invalid_label_msg label])
    else check_labels rest

/-- Embeds `EmailValidator._validate_domain_part`. -/
def validate_domain_part (domain : List Char) : Bool × List String :=
  if domain = [] then (false, ["Domain part (after @) cannot be empty"])
  else if 255 < domain.length then
    (false, ["Domain exceeds maximum length of 255 characters"])
  else if '.' ∉ domain then (false, ["Domain must contain at least one period"])
  else if domain.head? = some '.' ∨ domain.getLast? = some '.' ∨
      domain.head? = some '-' ∨ domain.getLast? = some '-' then
    (false, ["Domain cannot start or end with a period or hyphen"])
  else if hasDoubled '.' domain then
    (false, ["Domain cannot contain consecutive periods"])
  else if ((pySplit '.' domain).getLastD []).length < 2 then
    (false, ["Top-level domain must be at least 2 characters"])
  else check_labels (pySplit '.' domain)

/-- Matcher for the tail `[a-zA-Z0-9.-]+\.[a-zA-Z]\x7b2,\x7d` of
`EMAIL_PATTERN`: some split position gives a nonempty domain run, a literal
dot and a TLD of at least two letters. -/
def matchDomainTail (r : List Char) : Bool :=
  (List.range (r.length + 1)).any fun j =>
    match r.drop j with
    | c :: t =>
      c == '.' && decide (r.take j ≠ []) && (r.take j).all isDomainChar &&
      decide (2 ≤ t.length) && t.all isAlphaC
    | [] => false

/-- Matcher for the anchored pattern
`^[a-zA-Z0-9._%+-]+@[a-zA-Z0-9.-]+\.[a-zA-Z]\x7b2,\x7d$` of `EMAIL_PATTERN`. -/
def emailPatternCore (s : List Char) : Bool :=
  (List.range (s.length + 1)).any fun i =>
    match s.drop i with
    | c :: rest =>
      c == '@' && decide (s.take i ≠ []) && (s.take i).all isLocalChar &&
      matchDomainTail rest
    | [] => false

/-- Models `EMAIL_PATTERN.match(email)` as a Bool: the Python anchor `$` also
matches just before a final newline. -/
def emailPatternMatch (s : List Char) : Bool :=
  emailPatternCore s || (decide (s.getLast? = some '\n') && emailPatternCore s.dropLast)

/-- Embeds `EmailValidator.validate`: the verdict together with the error
list this call leaves in `self.errors` (the Python method first clears the
list, so the call result depends only on the argument). -/
def validate (strict : Bool) (email : List Char) : Bool × List String :=
  if email = [] then (false, ["Email address cannot be empty"])
  else if 254 < (pyStrip email).length then
    (false, ["Email exceeds maximum length of 254 characters"])
  else if (pyStrip email).count '@' ≠ 1 then
    (false, ["Email must contain exactly one @ symbol"])
  else if (validate_local_part strict (rsplitOnce '@' (pyStrip email)).1).1 = false then
    (false, (validate_local_part strict (rsplitOnce '@' (pyStrip email)).1).2)
  else if (validate_domain_part (rsplitOnce '@' (pyStrip email)).2).1 = false then
    (false, (validate_domain_part (rsplitOnce '@' (pyStrip email)).2).2)
  else if emailPatternMatch (pyStrip email) = false then (false, ["Email format is invalid"])
  else (true, [])

/-- Calls of `validate` on an optional input: Python `if not email` treats
both `None` and the empty string as falsy, so a `None` argument takes the
same branch as the empty string and raises no exception. -/
def validateOpt (strict : Bool) : Option (List Char) → Bool × List String
  | none => (false, ["Email address cannot be empty"])
  | some e => validate strict e

/-- The instance state of the Python class: the `strict_mode` flag fixed at
construction and the `errors` list of the most recent call. -/
structure EmailValidator where
  strict_mode : Bool
  errors : List String

/-- Embeds `EmailValidator.__init__`. -/
def EmailValidator.init (strict : Bool) : EmailValidator :=
  { strict_mode := strict, errors := [] }

/-- Stateful `validate`: returns the verdict and the instance after the call
(with `errors` cleared and repopulated). -/
def EmailValidator.validate (v : EmailValidator) (email : Option (List Char)) :
    Bool × EmailValidator :=
  ((validateOpt v.strict_mode email).1,
   { v with errors := (validateOpt v.strict_mode email).2 })

/-- Embeds `EmailValidator.is_valid`, an alias of `validate`. -/
def EmailValidator.is_valid (v : EmailValidator) (email : Option (List Char)) :
    Bool × EmailValidator :=
  v.validate email

/-- Embeds `EmailValidator.get_errors` (returns a copy of `self.errors`). -/
def EmailValidator.get_errors (v : EmailValidator) : List String :=
  v.errors

/-- Embeds `EmailValidator.validate_with_details`: the pair
`(is_valid, error_list)` together with the instance after the call. -/
def EmailValidator.validate_with_details (v : EmailValidator) (email : Option (List Char)) :
    (Bool × List String) × EmailValidator :=
  (((v.validate email).1, (v.validate email).2.get_errors), (v.validate email).2)

/-- Stage 1 of `validate`: the input is not falsy. -/
def stage1 (email : List Char) : Prop := email ≠ []

/-- Stage 2 of `validate`: the trimmed input is at most 254 characters. -/
def stage2 (email : List Char) : Prop := (pyStrip email).length ≤ 254

/-- Stage 3 of `validate`: the trimmed input contains exactly one `@`. -/
def stage3 (email : List Char) : Prop := (pyStrip email).count '@' = 1

/-- Stage 4 of `validate`: the local part checks pass. -/
def stage4 (strict : Bool) (email : List Char) : Prop :=
  (validate_local_part strict (rsplitOnce '@' (pyStrip email)).1).1 = true

/-- Stage 5 of `validate`: the domain part checks pass. -/
def stage5 (email : List Char) : Prop :=
  (validate_domain_part (rsplitOnce '@' (pyStrip email)).2).1 = true

/-- Stage 6 of `validate`: the final anchored pattern matches. -/
def stage6 (email : List Char) : Prop :=
  emailPatternMatch (pyStrip email) = true

/-- Helper: a failing local part check reports at most one message. -/
theorem validate_local_part_errors_len (s : Bool) (l : List Char) :
    (validate_local_part s l).2.length ≤ 1 := by
  unfold validate_local_part
  split_ifs <;> first
    | (split <;> simp)
    | simp

/-- Helper: the label loop reports at most one message. -/
theorem check_labels_errors_len (ls : List (List Char)) :
    (check_labels ls).2.length ≤ 1 := by
  induction ls with
  | nil => simp [check_labels]
  | cons l rest ih =>
    unfold check_labels
    split_ifs <;> simp_all

/-- Helper: a failing domain part check reports at most one message. -/
theorem validate_domain_part_errors_len (d : List Char) :
    (validate_domain_part d).2.length ≤ 1 := by
  unfold validate_domain_part
  split_ifs <;> first
    | exact check_labels_errors_len _
    | simp

/-- Helper: a failing local part check reports at least one message. -/
theorem validate_local_part_fail (s : Bool) (l : List Char) :
    (validate_local_part s l).1 = false → (validate_local_part s l).2 ≠ [] := by
  unfold validate_local_part
  split_ifs <;> first
    | (split <;> simp)
    | simp

/-- Helper: a failing label loop reports at least one message. -/
theorem check_labels_fail (ls : List (List Char)) :
    (check_labels ls).1 = false → (check_labels ls).2 ≠ [] := by
  induction ls with
  | nil => simp [check_labels]
  | cons l rest ih =>
    unfold check_labels
    split_ifs <;> simp_all

/-- Helper: a failing domain part check reports at least one message. -/
theorem validate_domain_part_fail (d : List Char) :
    (validate_domain_part d).1 = false → (validate_domain_part d).2 ≠ [] := by
  unfold validate_domain_part
  split_ifs <;> first
    | exact check_labels_fail _
    | simp

/-- C1: `validate` returns true iff all six stages succeed, and the error
list it leaves is empty iff the verdict is true. -/
theorem validate_true_iff_stages (s : Bool) (e : List Char) :
    ((validate s e).1 = true ↔
      stage1 e ∧ stage2 e ∧ stage3 e ∧ stage4 s e ∧ stage5 e ∧ stage6 e) ∧
    ((validate s e).2 = [] ↔ (validate s e).1 = true) := by
  unfold validate stage1 stage2 stage3 stage4 stage5 stage6
  split_ifs with h1 h2 h3 h4 h5 h6
  · exact ⟨iff_of_false (by simp) (fun h => h.1 h1), iff_of_false (by simp) (by simp)⟩
  · exact ⟨iff_of_false (by simp) (fun h => absurd h.2.1 (by omega)),
      iff_of_false (by simp) (by simp)⟩
  · exact ⟨iff_of_false (by simp) (fun h => h3 h.2.2.1),
      iff_of_false (by simp) (by simp)⟩
  · exact ⟨iff_of_false (by simp) (fun h => absurd h.2.2.2.1 (by simp [h4])),
      iff_of_false (by simpa using validate_local_part_fail s _ h4) (by simp)⟩
  · exact ⟨iff_of_false (by simp) (fun h => absurd h.2.2.2.2.1 (by simp [h5])),
      iff_of_false (by simpa using validate_domain_part_fail _ h5) (by simp)⟩
  · exact ⟨iff_of_false (by simp) (fun h => absurd h.2.2.2.2.2 (by simp [h6])),
      iff_of_false (by simp) (by simp)⟩
  · exact ⟨iff_of_true rfl
      ⟨h1, by omega, by omega, by simpa using h4, by simpa using h5, by simpa using h6⟩,
      iff_of_true rfl rfl⟩

/-- C4: every call of `validate` leaves at most one error message. -/
theorem validate_errors_at_most_one (s : Bool) (e : List Char) :
    (validate s e).2.length ≤ 1 := by
  unfold validate
  split_ifs <;> first
    | exact validate_local_part_errors_len s _
    | exact validate_domain_part_errors_len _
    | simp

/-- C6: calling `validate` twice with the same input on the same instance
(no interleaving) yields the same verdict and the same error list, because
each call clears `errors` before running. -/
theorem validate_idempotent (v : EmailValidator) (e : Option (List Char)) :
    ((v.validate e).2.validate e).1 = (v.validate e).1 ∧
    ((v.validate e).2.validate e).2.errors = (v.validate e).2.errors :=
  ⟨rfl, rfl⟩

/-- C8: a missing (`None`) input and the empty string both return false with
exactly the empty input message, on any instance; the model is a total
function, so no exception or separate fault class arises. -/
theorem validate_none_is_empty_input (v : EmailValidator) :
    (v.validate none).1 = false ∧
    (v.validate none).2.errors = ["Email address cannot be empty"] ∧
    (v.validate (some [])).1 = false ∧
    (v.validate (some [])).2.errors = ["Email address cannot be empty"] :=
  ⟨rfl, rfl, rfl, rfl⟩

/-- C9: the three valid by construction sample emails all get verdict true
and an empty error list from `validate_with_details`, whatever error list
the instance held before the call. -/
theorem valid_samples_with_details (e0 : List String) :
    (EmailValidator.validate_with_details ⟨false, e0⟩
      (some "user@example.com".data)).1 = (true, []) ∧
    (EmailValidator.validate_with_details ⟨false, e0⟩
      (some "test.email+tag@domain.co.uk".data)).1 = (true, []) ∧
    (EmailValidator.validate_with_details ⟨false, e0⟩
      (some "valid_email123@test-domain.org".data)).1 = (true, []) :=
  ⟨rfl, rfl, rfl⟩

/-- C3 (amended): for a nonfalsy input whose trimmed form is within the
length bound and does not contain exactly one `@`, the call returns false
with exactly the separator message. -/
theorem validate_bad_separator (s : Bool) (e : List Char) (h1 : e ≠ [])
    (h2 : (pyStrip e).length ≤ 254) (h3 : (pyStrip e).count '@' ≠ 1) :
    validate s e = (false, ["Email must contain exactly one @ symbol"]) := by
  unfold validate
  rw [if_neg h1, if_neg (by omega), if_pos h3]

/-- C3 witness: a sample input without any `@`. -/
theorem validate_bad_separator_w :
    validate false ("no-at-sign.com".data) =
      (false, ["Email must contain exactly one @ symbol"]) :=
  validate_bad_separator false _ (by decide) (by decide) (by decide)

/-- C3 counterexample: the empty string contains zero `@` characters, yet
the call reports the empty input message, not the separator message. -/
theorem empty_input_not_bad_separator :
    ([] : List Char).count '@' = 0 ∧
    validate false [] = (false, ["Email address cannot be empty"]) ∧
    validate false [] ≠ (false, ["Email must contain exactly one @ symbol"]) := by
  refine ⟨rfl, rfl, ?_⟩
  decide

/-- Helper: a string built as `String.mk (pre ++ rest)` differs from any
string that does not start with `pre`. -/
theorem mk_append_ne (pre rest : List Char) (t : String)
    (h : t.data.take pre.length ≠ pre) : String.mk (pre ++ rest) ≠ t := by
  intro he
  apply h
  rw [← he]
  exact List.take_left pre rest

/-- Helper: the invalid character message starts with its own fixed prefix,
so it differs from any string that does not. -/
theorem invalid_char_msg_ne (c : Char) (t : String)
    (h : t.data.take ("Local part contains invalid character: \x27".data.length) ≠
      "Local part contains invalid character: \x27".data) :
    invalid_char_msg c ≠ t :=
  mk_append_ne _ _ t h

/-- Helper: the invalid label message starts with its own fixed prefix, so
it differs from any string that does not. -/
theorem invalid_label_msg_ne (label : List Char) (t : String)
    (h : t.data.take ("Domain label \x27".data.length) ≠ "Domain label \x27".data) :
    invalid_label_msg label ≠ t :=
  mk_append_ne _ _ t h

/-- Helper: `dropWhile` cannot lengthen a list. -/
theorem dropWhile_length_le (p : Char → Bool) (l : List Char) :
    (l.dropWhile p).length ≤ l.length := by
  induction l with
  | nil => simp
  | cons a l ih =>
    rw [List.dropWhile_cons]
    split_ifs
    · exact le_trans ih (by simp)
    · simp

/-- Helper: stripping cannot lengthen a string. -/
theorem pyStrip_length_le (l : List Char) : (pyStrip l).length ≤ l.length := by
  simp only [pyStrip, List.length_reverse]
  exact le_trans (dropWhile_length_le _ _)
    (le_trans (le_of_eq (List.length_reverse _)) (dropWhile_length_le _ _))

/-- Helper: the length overflow message never comes from the local part
stage. -/
theorem too_long_not_in_local (s : Bool) (l : List Char) :
    "Email exceeds maximum length of 254 characters" ∉ (validate_local_part s l).2 := by
  unfold validate_local_part
  split_ifs <;> first
    | (split <;> first
        | exact fun hmem =>
            invalid_char_msg_ne _ _ (by decide) (List.mem_singleton.mp hmem).symm
        | simp)
    | decide

/-- Helper: the length overflow message never comes from the label loop. -/
theorem too_long_not_in_labels (ls : List (List Char)) :
    "Email exceeds maximum length of 254 characters" ∉ (check_labels ls).2 := by
  induction ls with
  | nil => simp [check_labels]
  | cons l rest ih =>
    unfold check_labels
    split_ifs <;> first
      | decide
      | exact ih
      | exact fun hmem =>
          invalid_label_msg_ne _ _ (by decide) (List.mem_singleton.mp hmem).symm

/-- Helper: the length overflow message never comes from the domain part
stage. -/
theorem too_long_not_in_domain (d : List Char) :
    "Email exceeds maximum length of 254 characters" ∉ (validate_domain_part d).2 := by
  unfold validate_domain_part
  split_ifs <;> first
    | exact too_long_not_in_labels _
    | decide

/-- Helper: when the trimmed input is within the bound, the length overflow
message cannot appear. -/
theorem too_long_not_in_validate (s : Bool) (e : List Char)
    (h : (pyStrip e).length ≤ 254) :
    "Email exceeds maximum length of 254 characters" ∉ (validate s e).2 := by
  unfold validate
  split_ifs with h1 h2 h3 h4 h5 h6
  · decide
  · omega
  · decide
  · exact too_long_not_in_local s _
  · exact too_long_not_in_domain _
  · decide
  · simp

/-- C7 (amended): a 254 character input always passes the length stage, and
a 255 character input with no leading or trailing whitespace is rejected
there with exactly the length overflow message (a 255 character input whose
surplus is whitespace is trimmed first and passes the stage). -/
theorem length_boundary :
    (∀ (s : Bool) (e : List Char), e.length = 254 →
       (pyStrip e).length ≤ 254 ∧
       "Email exceeds maximum length of 254 characters" ∉ (validate s e).2) ∧
    (∀ (s : Bool) (e : List Char), e.length = 255 → pyStrip e = e →
       validate s e = (false, ["Email exceeds maximum length of 254 characters"])) := by
  constructor
  · intro s e hlen
    have hle : (pyStrip e).length ≤ 254 := by
      have := pyStrip_length_le e
      omega
    exact ⟨hle, too_long_not_in_validate s e hle⟩
  · intro s e hlen hstrip
    have hne : e ≠ [] := by
      intro h0
      rw [h0] at hlen
      simp at hlen
    unfold validate
    rw [if_neg hne, if_pos (show 254 < (pyStrip e).length by rw [hstrip]; omega)]

set_option maxRecDepth 4000 in
/-- C7 witness: both halves of the boundary at concrete inputs. -/
theorem length_boundary_w :
    ((pyStrip (List.replicate 254 'a')).length ≤ 254 ∧
     "Email exceeds maximum length of 254 characters" ∉
       (validate false (List.replicate 254 'a')).2) ∧
    validate false (List.replicate 255 'a') =
      (false, ["Email exceeds maximum length of 254 characters"]) :=
  ⟨length_boundary.1 false _ (by rw [List.length_replicate]),
   length_boundary.2 false _ (by rw [List.length_replicate]) (by decide)⟩

set_option maxRecDepth 4000 in
/-- C7 counterexample: a 255 character string ending in a blank is trimmed
to 254 characters, passes the length stage, and is rejected later with the
separator message instead. -/
theorem length_255_passes_length_stage :
    (List.replicate 254 'a' ++ [' ']).length = 255 ∧
    validate false (List.replicate 254 'a' ++ [' ']) =
      (false, ["Email must contain exactly one @ symbol"]) ∧
    "Email exceeds maximum length of 254 characters" ∉
      (validate false (List.replicate 254 'a' ++ [' '])).2 := by
  refine ⟨by rw [List.length_append, List.length_replicate]; rfl, by decide, by decide⟩

/-- C2 (amended): on an ASCII input that passes the first three stages and
whose local part passes the emptiness, length, boundary period and
consecutive period checks, strict mode rejects with exactly the invalid
character message for the first character outside `[A-Za-z0-9._%+-]`. -/
theorem strict_mode_invalid_char (e : List Char) (c : Char)
    (h1 : e ≠ [])
    (h2 : (pyStrip e).length ≤ 254)
    (h3 : (pyStrip e).count '@' = 1)
    (h4 : (rsplitOnce '@' (pyStrip e)).1 ≠ [])
    (h5 : (rsplitOnce '@' (pyStrip e)).1.length ≤ 64)
    (h6 : (rsplitOnce '@' (pyStrip e)).1.head? ≠ some '.')
    (h7 : (rsplitOnce '@' (pyStrip e)).1.getLast? ≠ some '.')
    (h8 : hasDoubled '.' (rsplitOnce '@' (pyStrip e)).1 = false)
    (_h9 : ∀ x ∈ (rsplitOnce '@' (pyStrip e)).1, x.toNat ≤ 127)
    (h10 : (rsplitOnce '@' (pyStrip e)).1.find? (fun x => !(isLocalChar x)) = some c) :
    (validate true e).1 = false ∧ (validate true e).2 = [invalid_char_msg c] := by
  have hl : validate_local_part true (rsplitOnce '@' (pyStrip e)).1 =
      (false, [invalid_char_msg c]) := by
    unfold validate_local_part
    rw [if_neg h4, if_neg (by omega), if_neg (not_or.mpr ⟨h6, h7⟩),
      if_neg (by simp [h8]), if_pos rfl, h10]
  unfold validate
  rw [if_neg h1, if_neg (by omega), if_neg (by omega), hl]
  simp

/-- C2 witness: in strict mode, `a!b@example.com` is rejected with exactly
the invalid character message naming the exclamation mark. -/
theorem strict_mode_invalid_char_w :
    (validate true "a!b@example.com".data).1 = false ∧
    (validate true "a!b@example.com".data).2 = [invalid_char_msg '!'] :=
  strict_mode_invalid_char _ '!' (by decide) (by decide) (by decide) (by decide)
    (by decide) (by decide) (by decide) (by decide) (by decide) (by decide)

/-- C2 counterexample: the local part of `.x!@example.com` contains the out
of class character `!`, yet strict mode reports the boundary period message,
not the invalid character message. -/
theorem strict_mode_boundary_shadows_invalid_char :
    '!' ∈ (rsplitOnce '@' (pyStrip ".x!@example.com".data)).1 ∧
    isLocalChar '!' = false ∧
    (validate true ".x!@example.com".data).1 = false ∧
    (validate true ".x!@example.com".data).2 =
      ["Local part cannot start or end with a period"] ∧
    invalid_char_msg '!' ∉ (validate true ".x!@example.com".data).2 := by
  refine ⟨by decide, by decide, by decide, by decide, by decide⟩

/-- Helper: `pySplit` always produces at least one piece. -/
theorem pySplit_ne_nil (sep : Char) (l : List Char) : pySplit sep l ≠ [] := by
  induction l with
  | nil => simp [pySplit]
  | cons c rest ih =>
    unfold pySplit
    split_ifs
    · simp
    · split <;> simp

/-- Helper: unfolding `pySplit` at a separator head. -/
theorem pySplit_cons_pos (sep : Char) (rest : List Char) :
    pySplit sep (sep :: rest) = [] :: pySplit sep rest := by
  simp [pySplit]

/-- Helper: unfolding `pySplit` at a non separator head. -/
theorem pySplit_cons_neg {sep c : Char} (h : c ≠ sep) (rest p : List Char)
    (ps : List (List Char)) (hps : pySplit sep rest = p :: ps) :
    pySplit sep (c :: rest) = (c :: p) :: ps := by
  rw [pySplit, if_neg h, hps]

/-- Helper: removing the head of a doubled separator free list keeps it
doubled separator free. -/
theorem hasDoubled_cons_false {sep a : Char} {l : List Char}
    (h : hasDoubled sep (a :: l) = false) : hasDoubled sep l = false := by
  cases l with
  | nil => rfl
  | cons b r =>
    unfold hasDoubled at h
    split_ifs at h
    exact h

/-- Helper: in a doubled separator free list, the two leading characters are
not both the separator. -/
theorem hasDoubled_head {sep a b : Char} {l : List Char}
    (h : hasDoubled sep (a :: b :: l) = false) : ¬(a = sep ∧ b = sep) := by
  unfold hasDoubled at h
  split_ifs at h with hc
  exact hc

/-- Helper: in a list without doubled separators and without a trailing
separator, every piece of `pySplit` after the first is nonempty; if the list
is also nonempty without a leading separator, every piece is nonempty. -/
theorem pySplit_parts (sep : Char) (l : List Char) :
    hasDoubled sep l = false → l.getLast? ≠ some sep →
    ((∀ p ∈ (pySplit sep l).tail, p ≠ []) ∧
     (l.head? ≠ some sep → l ≠ [] → ∀ p ∈ pySplit sep l, p ≠ [])) := by
  induction l with
  | nil => exact fun _ _ => ⟨by simp [pySplit], fun _ h => absurd rfl h⟩
  | cons c rest ih =>
    intro hd hlast
    have f1 : hasDoubled sep rest = false := hasDoubled_cons_false hd
    by_cases hc : c = sep
    · subst hc
      cases rest with
      | nil => exact absurd (by simp) hlast
      | cons b r =>
        have hb : b ≠ c := fun hb => hasDoubled_head hd ⟨rfl, hb⟩
        have f2 : (b :: r).getLast? ≠ some c := by
          rw [List.getLast?_cons_cons] at hlast
          exact hlast
        have hall : ∀ p ∈ pySplit c (b :: r), p ≠ [] :=
          (ih f1 f2).2 (by simp [hb]) (by simp)
        refine ⟨?_, fun hh _ => absurd rfl hh⟩
        intro q hq
        rw [pySplit_cons_pos] at hq
        exact hall q (by simpa using hq)
    · cases hps : pySplit sep rest with
      | nil => exact absurd hps (pySplit_ne_nil sep rest)
      | cons p ps =>
        have hsplit : pySplit sep (c :: rest) = (c :: p) :: ps :=
          pySplit_cons_neg hc rest p ps hps
        have htail : ∀ q ∈ ps, q ≠ [] := by
          cases rest with
          | nil =>
            have h0 : ([[]] : List (List Char)) = p :: ps := hps
            have h1 : ps = [] := by
              injection h0 with _ h1
              exact h1.symm
            subst h1
            simp
          | cons b r =>
            have f2 : (b :: r).getLast? ≠ some sep := by
              rw [List.getLast?_cons_cons] at hlast
              exact hlast
            have ht := (ih f1 f2).1
            rw [hps] at ht
            exact fun q hq => ht q (by simpa using hq)
        constructor
        · intro q hq
          rw [hsplit] at hq
          exact htail q (by simpa using hq)
        · intro _ _ q hq
          rw [hsplit] at hq
          rcases List.mem_cons.mp hq with h1 | h2
          · simp [h1]
          · exact htail q h2

/-- Helper: when every label is nonempty, the label loop never appends the
empty label message. -/
theorem check_labels_no_empty_msg (ls : List (List Char))
    (h : ∀ l ∈ ls, l ≠ []) :
    "Domain labels cannot be empty" ∉ (check_labels ls).2 := by
  induction ls with
  | nil => simp [check_labels]
  | cons l rest ih =>
    unfold check_labels
    rw [if_neg (h l (by simp))]
    split_ifs <;> first
      | decide
      | exact ih fun q hq => h q (List.mem_cons_of_mem _ hq)
      | exact fun hmem =>
          invalid_label_msg_ne _ _ (by decide) (List.mem_singleton.mp hmem).symm

/-- C5: a domain that passed the earlier domain checks splits into labels
that are all nonempty, and on every input the empty label message is never
appended by the domain stage. -/
theorem domain_labels_nonempty :
    (∀ domain : List Char, domain ≠ [] → domain.length ≤ 255 → '.' ∈ domain →
       domain.head? ≠ some '.' → domain.getLast? ≠ some '.' →
       domain.head? ≠ some '-' → domain.getLast? ≠ some '-' →
       hasDoubled '.' domain = false →
       ∀ label ∈ pySplit '.' domain, label ≠ []) ∧
    (∀ domain : List Char,
       "Domain labels cannot be empty" ∉ (validate_domain_part domain).2) := by
  constructor
  · intro domain hne _ _ hh hl _ _ hd
    exact (pySplit_parts '.' domain hd hl).2 hh hne
  · intro domain
    unfold validate_domain_part
    split_ifs with g1 g2 g3 g4 g5 g6 <;> first
      | decide
      | (apply check_labels_no_empty_msg
         rw [not_or, not_or, not_or] at g4
         exact (pySplit_parts '.' domain (by simpa using g5) g4.2.1).2 g4.1 g1)

/-- C5 witness: the sample domain `example.com` satisfies the earlier checks
and splits into nonempty labels. -/
theorem domain_labels_nonempty_w :
    (∀ label ∈ pySplit '.' ("example.com".data), label ≠ []) ∧
    "Domain labels cannot be empty" ∉ (validate_domain_part "example.com".data).2 :=
  ⟨domain_labels_nonempty.1 _ (by decide) (by decide) (by decide) (by decide)
      (by decide) (by decide) (by decide) (by decide),
   domain_labels_nonempty.2 _⟩

/-- Helper: a list with exactly one occurrence of `x` splits around it. -/
theorem count_eq_one_decomp {x : Char} {l : List Char} (h : l.count x = 1) :
    ∃ a b, l = a ++ x :: b ∧ x ∉ a ∧ x ∉ b := by
  induction l with
  | nil => simp at h
  | cons y ys ih =>
    by_cases hy : y = x
    · subst hy
      have h0 : ys.count y = 0 := by simpa [List.count_cons] using h
      exact ⟨[], ys, rfl, by simp, List.count_eq_zero.mp h0⟩
    · have h1 : ys.count x = 1 := by simpa [List.count_cons, hy] using h
      obtain ⟨a, b, rfl, ha, hb⟩ := ih h1
      refine ⟨y :: a, b, rfl, ?_, hb⟩
      simp only [List.mem_cons, not_or]
      exact ⟨fun hxy => hy hxy.symm, ha⟩

/-- Helper: `takeWhile` of everything different from `x` stops exactly at
the first `x`. -/
theorem takeWhile_ne_append {x : Char} (u v : List Char) (hu : x ∉ u) :
    (u ++ x :: v).takeWhile (fun y => decide (y ≠ x)) = u := by
  induction u with
  | nil => simp [List.takeWhile_cons]
  | cons a u ih =>
    have ha : a ≠ x := fun h => hu (by simp [h])
    have hu2 : x ∉ u := fun h => hu (List.mem_cons_of_mem _ h)
    rw [List.cons_append, List.takeWhile_cons, if_pos (by simpa using ha), ih hu2]

/-- Helper: `dropWhile` of everything different from `x` lands on the first
`x`. -/
theorem dropWhile_ne_append {x : Char} (u v : List Char) (hu : x ∉ u) :
    (u ++ x :: v).dropWhile (fun y => decide (y ≠ x)) = x :: v := by
  induction u with
  | nil => simp [List.dropWhile_cons]
  | cons a u ih =>
    have ha : a ≠ x := fun h => hu (by simp [h])
    have hu2 : x ∉ u := fun h => hu (List.mem_cons_of_mem _ h)
    rw [List.cons_append, List.dropWhile_cons, if_pos (by simpa using ha)]
    exact ih hu2

/-- Helper: `rsplitOnce` around the last (here, only) occurrence of the
separator recovers the two sides. -/
theorem rsplitOnce_spec {x : Char} (a b : List Char) (hb : x ∉ b) :
    rsplitOnce x (a ++ x :: b) = (a, b) := by
  unfold rsplitOnce
  have hrev : (a ++ x :: b).reverse = b.reverse ++ x :: a.reverse := by simp
  rw [hrev, takeWhile_ne_append _ _ (by simpa using hb),
    dropWhile_ne_append _ _ (by simpa using hb)]
  simp

/-- Helper: a decomposition around a character absent from both prefixes is
unique. -/
theorem append_sep_inj {x : Char} :
    ∀ (a c b d : List Char), a ++ x :: b = c ++ x :: d → x ∉ a → x ∉ c →
      a = c ∧ b = d := by
  intro a
  induction a with
  | nil =>
    intro c b d h _ hc
    cases c with
    | nil =>
      simp only [List.nil_append, List.cons.injEq] at h
      exact ⟨rfl, h.2⟩
    | cons y cs =>
      simp only [List.nil_append, List.cons_append, List.cons.injEq] at h
      exact absurd (by simp [h.1]) hc
  | cons y as ih =>
    intro c b d h ha hc
    cases c with
    | nil =>
      simp only [List.cons_append, List.nil_append, List.cons.injEq] at h
      exact absurd (by simp [h.1]) ha
    | cons z cs =>
      simp only [List.cons_append, List.cons.injEq] at h
      obtain ⟨h1, h2⟩ := h
      have ha2 : x ∉ as := fun hm => ha (List.mem_cons_of_mem _ hm)
      have hc2 : x ∉ cs := fun hm => hc (List.mem_cons_of_mem _ hm)
      obtain ⟨h3, h4⟩ := ih cs b d h2 ha2 hc2
      exact ⟨by rw [h1, h3], h4⟩

/-- Helper: existential characterisation of the domain tail matcher. -/
theorem matchDomainTail_iff (r : List Char) :
    matchDomainTail r = true ↔
      ∃ d t, r = d ++ '.' :: t ∧ d ≠ [] ∧ d.all isDomainChar = true ∧
        2 ≤ t.length ∧ t.all isAlphaC = true := by
  unfold matchDomainTail
  rw [List.any_eq_true]
  constructor
  · rintro ⟨j, hj, hpred⟩
    cases hdrop : r.drop j with
    | nil =>
      rw [hdrop] at hpred
      simp at hpred
    | cons c t =>
      rw [hdrop] at hpred
      simp only [Bool.and_eq_true, beq_iff_eq, decide_eq_true_eq] at hpred
      obtain ⟨⟨⟨⟨hc, hne⟩, hall⟩, hlen⟩, halpha⟩ := hpred
      subst hc
      refine ⟨r.take j, t, ?_, hne, hall, hlen, halpha⟩
      conv_lhs => rw [← List.take_append_drop j r]
      rw [hdrop]
  · rintro ⟨d, t, rfl, hne, hall, hlen, halpha⟩
    refine ⟨d.length, ?_, ?_⟩
    · rw [List.mem_range, List.length_append]
      omega
    · rw [List.drop_left, List.take_left]
      simp [hne, hall, hlen, halpha]

/-- Helper: existential characterisation of the full pattern matcher. -/
theorem emailPatternCore_iff (s : List Char) :
    emailPatternCore s = true ↔
      ∃ l r, s = l ++ '@' :: r ∧ l ≠ [] ∧ l.all isLocalChar = true ∧
        matchDomainTail r = true := by
  unfold emailPatternCore
  rw [List.any_eq_true]
  constructor
  · rintro ⟨i, hi, hpred⟩
    cases hdrop : s.drop i with
    | nil =>
      rw [hdrop] at hpred
      simp at hpred
    | cons c rest =>
      rw [hdrop] at hpred
      simp only [Bool.and_eq_true, beq_iff_eq, decide_eq_true_eq] at hpred
      obtain ⟨⟨⟨hc, hne⟩, hall⟩, htail⟩ := hpred
      subst hc
      refine ⟨s.take i, rest, ?_, hne, hall, htail⟩
      conv_lhs => rw [← List.take_append_drop i s]
      rw [hdrop]
  · rintro ⟨l, r, rfl, hne, hall, htail⟩
    refine ⟨l.length, ?_, ?_⟩
    · rw [List.mem_range, List.length_append]
      omega
    · rw [List.drop_left, List.take_left]
      simp [hne, hall, htail]

/-- Helper: splitting a list without the separator gives the list itself. -/
theorem pySplit_no_sep {sep : Char} (l : List Char) (h : sep ∉ l) :
    pySplit sep l = [l] := by
  induction l with
  | nil => simp [pySplit]
  | cons c rest ih =>
    have hc : c ≠ sep := fun hc => h (by simp [hc])
    have h2 : sep ∉ rest := fun hm => h (List.mem_cons_of_mem _ hm)
    rw [pySplit_cons_neg hc rest rest [] (ih h2)]

/-- Helper: a list containing the separator splits into at least two
pieces. -/
theorem pySplit_mem_length {sep : Char} (l : List Char) (h : sep ∈ l) :
    2 ≤ (pySplit sep l).length := by
  induction l with
  | nil => simp at h
  | cons c rest ih =>
    by_cases hc : c = sep
    · subst hc
      rw [pySplit_cons_pos]
      have := List.length_pos.mpr (pySplit_ne_nil c rest)
      simp only [List.length_cons]
      omega
    · have hrest : sep ∈ rest := by
        rcases List.mem_cons.mp h with h1 | h2
        · exact absurd h1.symm hc
        · exact h2
      cases hps : pySplit sep rest with
      | nil => exact absurd hps (pySplit_ne_nil sep rest)
      | cons p ps =>
        rw [pySplit_cons_neg hc rest p ps hps]
        have := ih hrest
        rw [hps] at this
        simpa using this

/-- Helper: the last piece of a split around the final separator occurrence
is everything after it. -/
theorem pySplit_getLastD {sep : Char} (b : List Char) (hb : sep ∉ b) :
    ∀ a : List Char, (pySplit sep (a ++ sep :: b)).getLastD [] = b := by
  intro a
  induction a with
  | nil =>
    simp only [List.nil_append]
    rw [pySplit_cons_pos, pySplit_no_sep b hb]
    simp [List.getLastD_cons]
  | cons y a ih =>
    by_cases hy : y = sep
    · subst hy
      rw [List.cons_append, pySplit_cons_pos, List.getLastD_cons]
      exact ih
    · rw [List.cons_append]
      cases hps : pySplit sep (a ++ sep :: b) with
      | nil => exact absurd hps (pySplit_ne_nil _ _)
      | cons p ps =>
        rw [pySplit_cons_neg hy _ p ps hps]
        have hlen : 2 ≤ (pySplit sep (a ++ sep :: b)).length :=
          pySplit_mem_length _ (by simp)
        rw [hps] at hlen
        have hpsne : ps ≠ [] := by
          simp only [List.length_cons] at hlen
          exact List.length_pos.mp (by omega)
        rw [hps] at ih
        rw [List.getLastD_cons] at ih ⊢
        rw [← ih]
        rw [List.getLastD_eq_getLast?, List.getLastD_eq_getLast?]
        cases hgl : ps.getLast? with
        | none => exact absurd (List.getLast?_eq_none_iff.mp hgl) hpsne
        | some q => rfl

/-- Helper: a stripped string never ends in a whitespace character. -/
theorem pyStrip_getLast_not_space (l : List Char) (c : Char)
    (h : (pyStrip l).getLast? = some c) : pyIsSpace c = false := by
  unfold pyStrip at h
  rw [List.getLast?_reverse] at h
  have hm := List.head?_dropWhile_not pyIsSpace (l.dropWhile pyIsSpace).reverse
  rw [h] at hm
  exact hm

/-- Helper: no character is both an ASCII digit and an ASCII letter. -/
theorem isDigitC_not_isAlphaC {c : Char} (hd : isDigitC c = true)
    (ha : isAlphaC c = true) : False := by
  simp only [isDigitC, isAlphaC, Bool.and_eq_true, Bool.or_eq_true,
    decide_eq_true_eq] at hd ha
  omega

/-- C10: on any input that passes stages one to five, if the final domain
label (the TLD) contains a digit (and has length at least two, so the TLD
length check indeed accepted it), `validate` returns false with exactly the
pattern message: only the final anchored pattern, whose TLD must be two or
more letters, rejects it. -/
theorem tld_digit_pattern_reject (s : Bool) (e : List Char)
    (h1 : e ≠ [])
    (h2 : (pyStrip e).length ≤ 254)
    (h3 : (pyStrip e).count '@' = 1)
    (h4 : (validate_local_part s (rsplitOnce '@' (pyStrip e)).1).1 = true)
    (h5 : (validate_domain_part (rsplitOnce '@' (pyStrip e)).2).1 = true)
    (htld : ∃ c ∈ (pySplit '.' (rsplitOnce '@' (pyStrip e)).2).getLastD [],
      isDigitC c = true)
    (_hlen2 : 2 ≤ ((pySplit '.' (rsplitOnce '@' (pyStrip e)).2).getLastD []).length) :
    validate s e = (false, ["Email format is invalid"]) := by
  obtain ⟨a, b, heq, ha, hb⟩ := count_eq_one_decomp h3
  have hr : rsplitOnce '@' (pyStrip e) = (a, b) := by
    rw [heq]
    exact rsplitOnce_spec a b hb
  rw [hr] at htld
  have hpat : emailPatternMatch (pyStrip e) = false := by
    unfold emailPatternMatch
    rw [Bool.or_eq_false_iff]
    constructor
    · by_contra hcore
      rw [Bool.not_eq_false, emailPatternCore_iff] at hcore
      obtain ⟨l, r, hseq, hlne, hlall, htail⟩ := hcore
      rw [matchDomainTail_iff] at htail
      obtain ⟨d, t, hrq, hdne, hdall, htlen, htall⟩ := htail
      subst hrq
      have hnl : '@' ∉ l := fun hm =>
        absurd (List.all_eq_true.mp hlall _ hm) (by decide)
      have heq2 : a ++ '@' :: b = l ++ '@' :: (d ++ '.' :: t) := by
        rw [← heq, hseq]
      obtain ⟨hal, hbd⟩ := append_sep_inj a l b _ heq2 ha hnl
      have hdot_t : '.' ∉ t := fun hm =>
        absurd (List.all_eq_true.mp htall _ hm) (by decide)
      have hlast : (pySplit '.' b).getLastD [] = t := by
        rw [hbd]
        exact pySplit_getLastD t hdot_t d
      obtain ⟨cd, hcd_mem, hcd⟩ := htld
      rw [hlast] at hcd_mem
      exact isDigitC_not_isAlphaC hcd (List.all_eq_true.mp htall _ hcd_mem)
    · cases hgl : (pyStrip e).getLast? with
      | none => simp [hgl]
      | some c =>
        have hsp := pyStrip_getLast_not_space e c hgl
        have hc : c ≠ '\n' := by
          intro hcn
          rw [hcn] at hsp
          exact absurd hsp (by decide)
        simp [hgl, hc]
  unfold validate
  rw [if_neg h1, if_neg (by omega), if_neg (by omega), if_neg (by simp [h4]),
    if_neg (by simp [h5]), if_pos hpat]

/-- C10 witness: `user@example.c2m` passes stages one to five, its TLD `c2m`
contains a digit, and the call ends with exactly the pattern message. -/
theorem tld_digit_pattern_reject_w :
    validate false "user@example.c2m".data = (false, ["Email format is invalid"]) :=
  tld_digit_pattern_reject false _ (by decide) (by decide) (by decide) (by decide)
    (by decide) ⟨'2', by decide, by decide⟩ (by decide)
